import Mathlib

/-!
# Verification of the receipt-reconstruction core

Shallow embedding of the layout-reconstruction pipeline of
`src/receiptReconstructor.tsx` (exported through `src/index.tsx`) and of the
gap-spacing heuristic of `ios/TextRecognizerV2.swift`, together with proofs
of the specified properties.

Modelling conventions:
* JavaScript numbers are modelled as `ℚ` (the claims under scrutiny are
  order/structure claims, not floating-point claims).
* JavaScript strings are modelled as `List Char`; the empty string is `[]`.
* `Array.prototype.sort` with a numeric key comparator is stable
  (ES2019); it is modelled by `List.insertionSort` on a `≤`-comparison of
  the key, which places an element after all already-sorted elements of
  equal key, i.e. is stable.
* `Array.prototype.filter` is `List.filter`; `[...xs]` copies are identities
  in a pure embedding; optional fields are `Option`.
-/

namespace DocScan

/-- `frame: {x, y, width, height}` of a `TextBlock` (`NativeDocumentScanner.ts`). -/
structure Frame where
  x : ℚ
  y : ℚ
  width : ℚ
  height : ℚ
deriving DecidableEq, Repr

/-- `TextBlock` from `NativeDocumentScanner.ts`: recognized text, a normalized
bounding box, and an optional confidence. -/
structure TextBlock where
  text : List Char
  frame : Frame
  confidence : Option ℚ
deriving DecidableEq, Repr

/-- The internal `ReconstructMode` union type of `receiptReconstructor.tsx`. -/
inductive ReconstructMode where
  | paragraphs
  | clustered
deriving DecidableEq, Repr

/-- `MODE_FACTOR` constant: `{ paragraphs: 0.5, clustered: 0.4 }`. -/
def MODE_FACTOR : ReconstructMode → ℚ
  | .paragraphs => 1/2
  | .clustered => 2/5

/-- `ReconstructOptions`: all three fields optional.  `lineWidth` is kept as a
natural number: `new Array(n)` throws for negative lengths, so only
non-negative widths reach the rendering loop. -/
structure ReconstructOptions where
  lineWidth : Option ℕ := none
  minConfidence : Option ℚ := none
  rowGroupingFactor : Option ℚ := none
deriving DecidableEq, Repr

/-- The two `ScanMetadata` fields read by `reconstructReceipt`. -/
structure ScanMetadata where
  textVersion : ℕ
  ocrEngine : String
deriving DecidableEq, Repr

/-- The `scanResult` argument of `reconstructReceipt`:
`{ text?: string; blocks?: TextBlock[]; metadata?: ScanMetadata }`. -/
structure ScanInput where
  text : Option (List Char) := none
  blocks : Option (List TextBlock) := none
  metadata : Option ScanMetadata := none
deriving DecidableEq, Repr

/-! ## Stable sorting by a rational key (model of `Array.prototype.sort`) -/

/-- Key comparison used to model a stable JS numeric-comparator sort. -/
def keyLE {α : Type} (key : α → ℚ) (a b : α) : Prop := key a ≤ key b

instance {α : Type} (key : α → ℚ) : DecidableRel (keyLE key) := fun a b =>
  inferInstanceAs (Decidable (key a ≤ key b))

instance {α : Type} (key : α → ℚ) : IsTotal α (keyLE key) :=
  ⟨fun a b => le_total (key a) (key b)⟩

instance {α : Type} (key : α → ℚ) : IsTrans α (keyLE key) :=
  ⟨fun _ _ _ hab hbc => le_trans hab hbc⟩

instance : IsAntisymm ℚ (keyLE id) := ⟨fun _ _ hab hba => le_antisymm hab hba⟩

/-- Stable sort by a rational key: model of `xs.sort((a, b) => key(a) - key(b))`. -/
def sortByKey {α : Type} (key : α → ℚ) (l : List α) : List α :=
  l.insertionSort (keyLE key)

/-! ## Pieces of `reconstructFromBlocks` -/

/-- `midY = frame.y + frame.height / 2`. -/
def midY (b : TextBlock) : ℚ := b.frame.y + b.frame.height / 2

/-- Step 1 of `reconstructFromBlocks`: the confidence filter.
`minConfidence !== undefined ? blocks.filter(b => b.confidence === undefined
|| b.confidence >= minConfidence) : blocks`. -/
def filteredBlocks (blocks : List TextBlock) (minConfidence : Option ℚ) :
    List TextBlock :=
  match minConfidence with
  | some mc =>
      blocks.filter fun b =>
        match b.confidence with
        | none => true
        | some c => decide (mc ≤ c)
  | none => blocks

/-- `computeMedian` of `reconstructFromBlocks`: sort ascending, take the middle
element, or the mean of the two middle elements for even length.  (The source
indexes with `s[m-1]!`/`s[m]!`; it is only ever called on non-empty lists, and
the `getD _ 0` default is never reached there.) -/
def computeMedian (values : List ℚ) : ℚ :=
  let s := sortByKey id values
  let m := s.length / 2
  if s.length % 2 = 0 then (s.getD (m - 1) 0 + s.getD m 0) / 2 else s.getD m 0

/-- Step 2 of `reconstructFromBlocks`: the median block height, computed by the
same sort-and-take-middle code as `computeMedian`, over `frame.height`. -/
def typicalHeightOf (filtered : List TextBlock) : ℚ :=
  let heights := sortByKey id (filtered.map fun b => b.frame.height)
  let hMid := heights.length / 2
  if heights.length % 2 = 0 then
    (heights.getD (hMid - 1) 0 + heights.getD hMid 0) / 2
  else heights.getD hMid 0

/-- `threshold = rowGroupingFactor * (typicalHeight > 0 ? typicalHeight : 0.02)`. -/
def thresholdOf (filtered : List TextBlock) (rowGroupingFactor : ℚ) : ℚ :=
  rowGroupingFactor *
    (if 0 < typicalHeightOf filtered then typicalHeightOf filtered else 1/50)

/-- The row-grouping factor actually used:
`options.rowGroupingFactor ?? MODE_FACTOR[mode]`. -/
def effectiveFactor (mode : ReconstructMode) (options : ReconstructOptions) : ℚ :=
  options.rowGroupingFactor.getD (MODE_FACTOR mode)

/-- The `Row` interface of step 4: member blocks, their `midY`s, and the cached
median of those `midY`s. -/
structure Row where
  blocks : List TextBlock
  midYs : List ℚ
  medianMidY : ℚ
deriving DecidableEq, Repr

/-- The loop guard of step 4: `dist < threshold && dist < bestDist`, with
`bestDist = Infinity` before any row qualified (modelled by `none`). -/
def betterQ (threshold dist : ℚ) (best : Option (ℕ × ℚ)) : Bool :=
  decide (dist < threshold) &&
    (match best with
     | none => true
     | some p => decide (dist < p.2))

/-- The scan over `rows` in step 4 (`for (const row of rows) { ... }`):
carries the best `(index, dist)` so far; a row becomes the new best when the
guard `betterQ` holds for its distance. -/
def pickRowAux (blockMidY threshold : ℚ) :
    List Row → ℕ → Option (ℕ × ℚ) → Option (ℕ × ℚ)
  | [], _, best => best
  | row :: rs, i, best =>
      if betterQ threshold |row.medianMidY - blockMidY| best then
        pickRowAux blockMidY threshold rs (i + 1)
          (some (i, |row.medianMidY - blockMidY|))
      else
        pickRowAux blockMidY threshold rs (i + 1) best

/-- The row selected for a block (its index among `rows` and its distance), or
`none` when no row lies strictly within the threshold. -/
def pickRow (rows : List Row) (blockMidY threshold : ℚ) : Option (ℕ × ℚ) :=
  pickRowAux blockMidY threshold rows 0 none

/-- The `bestRow !== null` branch of step 4: push the block, push its `midY`,
recompute the cached median. -/
def appendToRow (row : Row) (b : TextBlock) : Row :=
  let midYs := row.midYs ++ [midY b]
  { blocks := row.blocks ++ [b]
    midYs := midYs
    medianMidY := computeMedian midYs }

/-- In-place update of the chosen row (the source mutates the aliased `Row`
object inside the `rows` array). -/
def updateRowAt : List Row → ℕ → TextBlock → List Row
  | [], _, _ => []
  | r :: rs, 0, b => appendToRow r b :: rs
  | r :: rs, i + 1, b => r :: updateRowAt rs i b

/-- One iteration of the step-4 loop body for a single block. -/
def insertBlock (threshold : ℚ) (rows : List Row) (b : TextBlock) : List Row :=
  match pickRow rows (midY b) threshold with
  | some (i, _) => updateRowAt rows i b
  | none => rows ++ [{ blocks := [b], midYs := [midY b], medianMidY := midY b }]

/-- The whole step-4 loop over the midY-sorted blocks. -/
def buildRows (threshold : ℚ) (blocks : List TextBlock) : List Row :=
  blocks.foldl (insertBlock threshold) []

/-- Steps 3–5: sort blocks by `midY`, greedily cluster, sort rows by
`medianMidY`. -/
def clusterRows (filtered : List TextBlock) (threshold : ℚ) : List Row :=
  sortByKey (fun r => r.medianMidY) (buildRows threshold (sortByKey midY filtered))

/-! ## Step 6: rendering a row into a fixed-width buffer -/

/-- `Math.round` for a non-negative-or-negative rational: round half away from
zero is JS behaviour only for `round`; JS `Math.round(x)` is `⌊x + 0.5⌋`. -/
def jsRound (q : ℚ) : ℤ := ⌊q + 1/2⌋

/-- `buf[pos] = c` where `buf` is a JS array of length `lineWidth`.
The source checks `pos < lineWidth`; a negative `pos` stores an ordinary
object property that `join('')` ignores, so only `0 ≤ pos < buf.length`
writes affect the output. -/
def writeChar (buf : List Char) (pos : ℤ) (c : Char) : List Char :=
  if 0 ≤ pos ∧ pos.toNat < buf.length then buf.set pos.toNat c else buf

/-- The inner character-copy loop: write `text[i]` at `col + i`. -/
def writeText : List Char → ℤ → List Char → List Char
  | buf, _, [] => buf
  | buf, col, c :: cs => writeText (writeChar buf col c) (col + 1) cs

/-- One iteration of the per-block rendering loop: state is
`(buf, cursor)`; `col = max(round(x * lineWidth), cursor)`; after the copy,
`cursor = col + text.length + 1`. -/
def rowStep (W : ℕ) (st : List Char × ℤ) (b : TextBlock) : List Char × ℤ :=
  let col := max (jsRound (b.frame.x * W)) st.2
  (writeText st.1 col b.text, col + (b.text.length : ℤ) + 1)

/-- `[...row.blocks].sort((a, b) => a.frame.x - b.frame.x)`. -/
def sortRowBlocks (row : Row) : List TextBlock :=
  sortByKey (fun b => b.frame.x) row.blocks

/-- JS whitespace test used by `trimEnd` (space, tab, CR, LF cover every
character this code base can emit). -/
def isJsSpace (c : Char) : Bool := c.isWhitespace

/-- `String.prototype.trimEnd`: drop the maximal whitespace suffix. -/
def trimEnd (l : List Char) : List Char :=
  (l.reverse.dropWhile isJsSpace).reverse

/-- Render one row: x-sort its blocks, run the buffer loop over a buffer of
`W` spaces starting at cursor `0`, then `join('').trimEnd()`. -/
def renderRow (W : ℕ) (row : Row) : List Char :=
  trimEnd ((sortRowBlocks row).foldl (rowStep W) (List.replicate W ' ', 0)).1

/-- `lines.join('\n')`: empty for no lines, otherwise the lines separated by
single `'\n'` characters (no trailing newline). -/
def joinLines : List (List Char) → List Char
  | [] => []
  | [l] => l
  | l :: l₂ :: ls => l ++ '\n' :: joinLines (l₂ :: ls)

/-- `reconstructFromBlocks(blocks, mode, options)` in full. -/
def reconstructFromBlocks (blocks : List TextBlock) (mode : ReconstructMode)
    (options : ReconstructOptions) : List Char :=
  let lineWidth := options.lineWidth.getD 56
  let filtered := filteredBlocks blocks options.minConfidence
  if filtered.isEmpty then []
  else
    let threshold := thresholdOf filtered (effectiveFactor mode options)
    joinLines ((clusterRows filtered threshold).map (renderRow lineWidth))

/-! ## `reconstructReceipt` -/

/-- The V2-passthrough guard:
`metadata?.textVersion === 2 && metadata.ocrEngine !== 'RecognizeDocumentsRequest'`. -/
def isNativeClusteredV2 (metadata : Option ScanMetadata) : Bool :=
  match metadata with
  | some md => md.textVersion == 2 && md.ocrEngine != "RecognizeDocumentsRequest"
  | none => false

/-- `metadata?.ocrEngine === 'RecognizeDocumentsRequest'`. -/
def isDocRequest (metadata : Option ScanMetadata) : Bool :=
  match metadata with
  | some md => md.ocrEngine == "RecognizeDocumentsRequest"
  | none => false

/-- `reconstructReceipt(scanResult, options)`:
destructure with defaults `blocks = []`, `text = ''`; V2 non-document-request
metadata returns `text.trimEnd()` when `text` is truthy (non-empty), else
falls back to `clustered` block reconstruction; otherwise the mode is
`paragraphs` exactly for the `RecognizeDocumentsRequest` engine. -/
def reconstructReceipt (scanResult : ScanInput)
    (options : ReconstructOptions) : List Char :=
  let text := scanResult.text.getD []
  let blocks := scanResult.blocks.getD []
  if isNativeClusteredV2 scanResult.metadata then
    if text.isEmpty then reconstructFromBlocks blocks .clustered options
    else trimEnd text
  else
    let mode : ReconstructMode :=
      if isDocRequest scanResult.metadata then .paragraphs else .clustered
    reconstructFromBlocks blocks mode options

/-! ## Gap spacing of `ios/TextRecognizerV2.swift` (`OCRConfiguration`) -/

/-- `OCRConfiguration.adaptiveSpacingFactor = 1.0`. -/
def adaptiveSpacingFactor : ℚ := 1

/-- `OCRConfiguration.spaceWidthFactor = 0.3`. -/
def spaceWidthFactor : ℚ := 3/10

/-- `OCRConfiguration.maxSpaces = 10`. -/
def maxSpaces : ℕ := 10

/-- Swift `Int(_: CGFloat)` truncates toward zero. -/
def truncQ (q : ℚ) : ℤ := if 0 ≤ q then ⌊q⌋ else ⌈q⌉

/-- Number of spaces the V2 line renderer inserts before a fragment whose gap
to the previous fragment is `gap`, on a cluster of median height `medianH`:
`gap > medianH * adaptiveSpacingFactor` gives
`min(max(1, Int(gap / (medianH * spaceWidthFactor))), maxSpaces)` spaces,
`gap > 0` gives a single space, otherwise none. -/
def v2GapSpaceCount (gap medianH : ℚ) : ℕ :=
  if gap > medianH * adaptiveSpacingFactor then
    (min (max 1 (truncQ (gap / (medianH * spaceWidthFactor)))) (maxSpaces : ℤ)).toNat
  else if gap > 0 then 1 else 0

/-! ## Derived views of the pipeline used by the statements -/

/-- The row list `reconstructFromBlocks` renders (steps 3–5 applied to the
confidence-filtered blocks with the effective threshold). -/
def pipelineRows (blocks : List TextBlock) (mode : ReconstructMode)
    (options : ReconstructOptions) : List Row :=
  clusterRows (filteredBlocks blocks options.minConfidence)
    (thresholdOf (filteredBlocks blocks options.minConfidence)
      (effectiveFactor mode options))

/-- The `(column, text)` placements performed by the step-6 loop, read off the
same `col`/`cursor` recurrence as `rowStep` (the buffer never influences
`col`, so the placements are a function of the cursor alone). -/
def placements (W : ℕ) : ℤ → List TextBlock → List (ℤ × List Char)
  | _, [] => []
  | cursor, b :: bs =>
      let col := max (jsRound (b.frame.x * W)) cursor
      (col, b.text) :: placements W (col + (b.text.length : ℤ) + 1) bs

/-- Longest run of consecutive `' '` characters in a rendered string
(observer used to state the space-cap claim). -/
def spaceRunsAux : List Char → ℕ → ℕ → ℕ
  | [], cur, best => max cur best
  | c :: cs, cur, best =>
      if c = ' ' then spaceRunsAux cs (cur + 1) best
      else spaceRunsAux cs 0 (max cur best)

/-- Longest run of consecutive spaces in a character list. -/
def maxSpaceRun (l : List Char) : ℕ := spaceRunsAux l 0 0

/-- Modelled from the spec words of the idempotence property: the input list
pre-sorted by `(y, x)` (stable, lexicographic). -/
def sortYX (l : List TextBlock) : List TextBlock :=
  l.insertionSort fun a b =>
    a.frame.y < b.frame.y ∨ (a.frame.y = b.frame.y ∧ a.frame.x ≤ b.frame.x)

/-- Modelled from the spec words of the confidence-filter contract: a block
passes when its confidence is absent or at least `minConfidence`. -/
def specPass (mc : ℚ) (b : TextBlock) : Prop :=
  b.confidence = none ∨ ∃ c, b.confidence = some c ∧ mc ≤ c

instance (mc : ℚ) (b : TextBlock) : Decidable (specPass mc b) := by
  unfold specPass
  cases b.confidence with
  | none => exact .isTrue (Or.inl rfl)
  | some c =>
      exact if h : mc ≤ c then .isTrue (Or.inr ⟨c, rfl, h⟩)
      else .isFalse (by
        rintro (hc | ⟨c', hc', hle⟩)
        · exact Option.noConfusion hc
        · cases Option.some.inj hc'; exact h hle)

/-! ## Concrete inputs for witnesses and counterexamples -/

/-- A one-character block at the left margin, height `0.1`. -/
def exA : TextBlock :=
  { text := ['A'], frame := { x := 0, y := 0, width := 1/10, height := 1/10 }
    confidence := none }

/-- A one-character block at `x = 0.5` on the same line as `exA`. -/
def exB : TextBlock :=
  { text := ['B'], frame := { x := 1/2, y := 0, width := 1/10, height := 1/10 }
    confidence := none }

/-- A block whose height `0.01` is positive but below `0.02`. -/
def exH : TextBlock :=
  { text := ['A'], frame := { x := 0, y := 0, width := 1/10, height := 1/100 }
    confidence := none }

/-- A block on a clearly separate lower line than `exA`. -/
def exFar : TextBlock :=
  { text := ['C'], frame := { x := 0, y := 1/2, width := 1/10, height := 1/10 }
    confidence := none }

/-- `midY = 0.1` via `y = 0, height = 0.2`. -/
def exTieA : TextBlock :=
  { text := ['A'], frame := { x := 3/10, y := 0, width := 1/10, height := 1/5 }
    confidence := none }

/-- `midY = 0.1` via `y = 0.05, height = 0.1`: same `midY` as `exTieA`, larger
`y`, equal `x`. -/
def exTieB : TextBlock :=
  { text := ['B'], frame := { x := 3/10, y := 1/20, width := 1/10, height := 1/10 }
    confidence := none }

/-- A block with confidence `0.2`, removed by any `minConfidence ≥ 0.2`. -/
def exLow : TextBlock :=
  { text := ['B'], frame := { x := 1/2, y := 0, width := 1/10, height := 1/10 }
    confidence := some (1/5) }

/-- V1 Android metadata: takes the block-reconstruction path. -/
def mdV1 : ScanMetadata := { textVersion := 1, ocrEngine := "MLKit" }

/-- V2 MLKit metadata: takes the native-text passthrough when text is present. -/
def mdV2 : ScanMetadata := { textVersion := 2, ocrEngine := "MLKit" }

/-! ## Sorting lemmas -/

theorem sortByKey_sorted {α : Type} (key : α → ℚ) (l : List α) :
    (sortByKey key l).Pairwise fun a b => key a ≤ key b :=
  List.sorted_insertionSort (keyLE key) l

theorem sortByKey_perm {α : Type} (key : α → ℚ) (l : List α) :
    (sortByKey key l).Perm l :=
  List.perm_insertionSort (keyLE key) l

/-- Two lists that are sorted by a key taking pairwise-distinct values on
their elements and are permutations of each other are equal. -/
theorem sorted_distinct_perm_eq {α : Type} {key : α → ℚ} :
    ∀ {l₁ l₂ : List α}, l₁.Perm l₂ →
      l₁.Pairwise (fun a b => key a ≤ key b) →
      l₂.Pairwise (fun a b => key a ≤ key b) →
      l₁.Pairwise (fun a b => key a ≠ key b) → l₁ = l₂
  | [], l₂, hp, _, _, _ => (hp.nil_eq).symm ▸ rfl
  | a :: t₁, [], hp, _, _, _ => absurd hp.length_eq (by simp)
  | a :: t₁, b :: t₂, hp, hs₁, hs₂, hd => by
      have hab : a = b := by
        by_contra hne
        have ha2 : a ∈ b :: t₂ := hp.subset (by simp)
        have hat2 : a ∈ t₂ := by
          rcases ha2 with _ | h
          · exact absurd rfl hne
          · assumption
        have hb1 : b ∈ a :: t₁ := hp.symm.subset (by simp)
        have hbt1 : b ∈ t₁ := by
          rcases hb1 with _ | h
          · exact absurd rfl (fun h => hne h.symm)
          · assumption
        have h₁ : key a ≤ key b := (List.pairwise_cons.mp hs₁).1 b hbt1
        have h₂ : key b ≤ key a := (List.pairwise_cons.mp hs₂).1 a hat2
        exact (List.pairwise_cons.mp hd).1 b hbt1 (le_antisymm h₁ h₂)
      subst hab
      have ht : t₁ = t₂ :=
        sorted_distinct_perm_eq (hp.cons_inv)
          (List.pairwise_cons.mp hs₁).2 (List.pairwise_cons.mp hs₂).2
          (List.pairwise_cons.mp hd).2
      rw [ht]

/-- Sorting by a key is invariant under permutation of the input, provided the
key is injective on the list's elements. -/
theorem sortByKey_eq_of_perm {α : Type} {key : α → ℚ} {l₁ l₂ : List α}
    (hp : l₁.Perm l₂) (hd : l₁.Pairwise fun a b => key a ≠ key b) :
    sortByKey key l₁ = sortByKey key l₂ := by
  have hperm : (sortByKey key l₁).Perm (sortByKey key l₂) :=
    (sortByKey_perm key l₁).trans (hp.trans (sortByKey_perm key l₂).symm)
  refine sorted_distinct_perm_eq hperm (sortByKey_sorted key l₁)
    (sortByKey_sorted key l₂) ?_
  exact ((sortByKey_perm key l₁).pairwise_iff
    (fun {a b} h e => h e.symm)).mpr hd

/-! ## trimEnd lemmas -/

theorem trimEnd_decomp (l : List Char) :
    ∃ w, l = trimEnd l ++ w ∧ ∀ c ∈ w, isJsSpace c = true := by
  refine ⟨(l.reverse.takeWhile isJsSpace).reverse, ?_, ?_⟩
  · conv_lhs => rw [← List.reverse_reverse l,
      ← List.takeWhile_append_dropWhile (p := isJsSpace) (l := l.reverse)]
    rw [List.reverse_append]
    rfl
  · intro c hc
    rw [List.mem_reverse] at hc
    exact List.mem_takeWhile_imp hc

theorem trimEnd_length_le (l : List Char) : (trimEnd l).length ≤ l.length := by
  unfold trimEnd
  rw [List.length_reverse]
  calc (l.reverse.dropWhile isJsSpace).length ≤ l.reverse.length :=
        (List.dropWhile_sublist _).length_le
    _ = l.length := List.length_reverse l

/-! ## Buffer lemmas -/

theorem writeChar_length (buf : List Char) (pos : ℤ) (c : Char) :
    (writeChar buf pos c).length = buf.length := by
  unfold writeChar
  split
  · exact List.length_set buf _ _
  · rfl

theorem writeText_length :
    ∀ (t : List Char) (buf : List Char) (col : ℤ),
      (writeText buf col t).length = buf.length
  | [], _, _ => rfl
  | c :: cs, buf, col => by
      rw [writeText, writeText_length cs, writeChar_length]

theorem foldl_rowStep_length (W : ℕ) :
    ∀ (bs : List TextBlock) (buf : List Char) (cursor : ℤ),
      ((bs.foldl (rowStep W) (buf, cursor)).1).length = buf.length
  | [], _, _ => rfl
  | b :: bs, buf, cursor => by
      rw [List.foldl_cons]
      show ((bs.foldl (rowStep W) (rowStep W (buf, cursor) b)).1).length = _
      rw [foldl_rowStep_length W bs]
      exact writeText_length _ _ _

theorem renderRow_length_le (W : ℕ) (row : Row) :
    (renderRow W row).length ≤ W := by
  unfold renderRow
  calc (trimEnd _).length ≤ _ := trimEnd_length_le _
    _ = (List.replicate W ' ').length := foldl_rowStep_length W _ _ _
    _ = W := List.length_replicate W ' '

/-! ## joinLines lemma -/

theorem joinLines_all_nl :
    ∀ ls : List (List Char), (∀ l ∈ ls, l = []) →
      ∀ c ∈ joinLines ls, c = '\n'
  | [], _, c, hc => absurd hc (by simp [joinLines])
  | [l], hl, c, hc => by
      rw [joinLines, hl l (by simp)] at hc
      exact absurd hc (by simp)
  | l :: l₂ :: ls, hl, c, hc => by
      rw [joinLines, hl l (by simp)] at hc
      rcases List.mem_cons.mp hc with h | h
      · exact h
      · exact joinLines_all_nl (l₂ :: ls) (fun x hx => hl x (by simp [hx])) c h

/-! ## Row-update lemmas -/

theorem updateRowAt_eq_set :
    ∀ (rows : List Row) (i : ℕ) (b : TextBlock) (h : i < rows.length),
      updateRowAt rows i b = rows.set i (appendToRow (rows.get ⟨i, h⟩) b)
  | [], i, _, h => absurd h (by simp)
  | r :: rs, 0, b, _ => rfl
  | r :: rs, i + 1, b, h => by
      rw [updateRowAt, updateRowAt_eq_set rs i b (by simpa using h)]
      rfl

/-! ## Characterization of the greedy row search -/

theorem betterQ_eq_true (t dist : ℚ) (best : Option (ℕ × ℚ)) :
    betterQ t dist best = true ↔ dist < t ∧ ∀ p, best = some p → dist < p.2 := by
  cases best <;> simp [betterQ]

theorem pickRowAux_append (m t : ℚ) :
    ∀ (xs ys : List Row) (i0 : ℕ) (best : Option (ℕ × ℚ)),
      pickRowAux m t (xs ++ ys) i0 best =
        pickRowAux m t ys (i0 + xs.length) (pickRowAux m t xs i0 best)
  | [], ys, i0, best => by simp [pickRowAux]
  | x :: xs, ys, i0, best => by
      by_cases hc : betterQ t |x.medianMidY - m| best = true
      · simp only [List.cons_append, pickRowAux, hc, if_true, List.append_eq]
        rw [pickRowAux_append m t xs ys (i0 + 1)]
        have hlen : i0 + 1 + xs.length = i0 + (x :: xs).length := by
          simp only [List.length_cons]; omega
        rw [hlen]
      · rw [Bool.not_eq_true] at hc
        simp only [List.cons_append, pickRowAux, hc, Bool.false_eq_true,
          if_false, List.append_eq]
        rw [pickRowAux_append m t xs ys (i0 + 1)]
        have hlen : i0 + 1 + xs.length = i0 + (x :: xs).length := by
          simp only [List.length_cons]; omega
        rw [hlen]

/-- Full characterization of one scan of the row list: `none` means no row is
strictly within the threshold; `some (i, d)` means row `i` is the first row
attaining the minimum distance among the rows strictly within the
threshold. -/
theorem pickRow_spec (m t : ℚ) (rows : List Row) :
    (pickRow rows m t = none ↔ ∀ r ∈ rows, ¬ |r.medianMidY - m| < t)
    ∧ (∀ i d, pickRow rows m t = some (i, d) →
        ∃ hi : i < rows.length,
          d = |(rows.get ⟨i, hi⟩).medianMidY - m| ∧ d < t ∧
          (∀ j, ∀ hj : j < rows.length,
            |(rows.get ⟨j, hj⟩).medianMidY - m| < t →
              d ≤ |(rows.get ⟨j, hj⟩).medianMidY - m|) ∧
          (∀ j, ∀ hj : j < rows.length, j < i →
            |(rows.get ⟨j, hj⟩).medianMidY - m| < t →
              d < |(rows.get ⟨j, hj⟩).medianMidY - m|)) := by
  induction rows using List.reverseRecOn with
  | nil =>
      refine ⟨by simp [pickRow, pickRowAux], ?_⟩
      intro i d h
      simp [pickRow, pickRowAux] at h
  | append_singleton rs r ih =>
      have hstep : pickRow (rs ++ [r]) m t =
          if betterQ t |r.medianMidY - m| (pickRow rs m t) then
            some (rs.length, |r.medianMidY - m|)
          else pickRow rs m t := by
        rw [pickRow, pickRowAux_append m t rs [r] 0 none]
        rw [← pickRow]
        by_cases hc : betterQ t |r.medianMidY - m| (pickRow rs m t) = true
        · rw [if_pos hc]
          simp [pickRowAux, hc]
        · rw [if_neg hc]
          have hc' : betterQ t |r.medianMidY - m| (pickRow rs m t) = false := by
            simpa using hc
          simp [pickRowAux, hc']
      by_cases hc : betterQ t |r.medianMidY - m| (pickRow rs m t) = true
      · -- the new row at index `rs.length` becomes the best
        rw [if_pos hc] at hstep
        obtain ⟨hDt, hbest⟩ := (betterQ_eq_true _ _ _).mp hc
        constructor
        · rw [hstep]
          constructor
          · intro h; exact absurd h (by simp)
          · intro hall
            exact absurd hDt (hall r (by simp))
        · intro i d h
          rw [hstep] at h
          obtain ⟨hi, hd⟩ : rs.length = i ∧ |r.medianMidY - m| = d := by
            have := Option.some.inj h
            exact ⟨congrArg Prod.fst this, congrArg Prod.snd this⟩
          subst hi; subst hd
          have hlen : rs.length < (rs ++ [r]).length := by simp
          refine ⟨hlen, ?_, hDt, ?_, ?_⟩
          · simp [List.get_eq_getElem]
          · intro j hj hq
            rcases Nat.lt_or_ge j rs.length with hjlt | hjge
            · -- old rows: either none qualified, or the old best bounds them
              have hget : (rs ++ [r]).get ⟨j, hj⟩ = rs.get ⟨j, hjlt⟩ := by
                simp [List.get_eq_getElem, List.getElem_append_left hjlt]
              rw [hget] at hq ⊢
              cases hold : pickRow rs m t with
              | none =>
                  exact absurd hq (ih.1.mp hold _ (List.get_mem rs j hjlt))
              | some p =>
                  obtain ⟨i₀, d₀⟩ := p
                  obtain ⟨hi₀, _, _, hmin, _⟩ := ih.2 i₀ d₀ hold
                  have hDd : |r.medianMidY - m| < d₀ := by
                    simpa using hbest (i₀, d₀) hold
                  exact le_trans (le_of_lt hDd) (hmin j hjlt hq)
            · -- j = rs.length: the new row itself
              have hj' : j = rs.length := by
                have := hj; simp at this; omega
              subst hj'
              have hget : (rs ++ [r]).get ⟨rs.length, hj⟩ = r := by
                simp [List.get_eq_getElem]
              rw [hget]
          · intro j hj hjlt hq
            have hjlt' : j < rs.length := hjlt
            have hget : (rs ++ [r]).get ⟨j, hj⟩ = rs.get ⟨j, hjlt'⟩ := by
              simp [List.get_eq_getElem, List.getElem_append_left hjlt']
            rw [hget] at hq ⊢
            cases hold : pickRow rs m t with
            | none =>
                exact absurd hq (ih.1.mp hold _ (List.get_mem rs j hjlt'))
            | some p =>
                obtain ⟨i₀, d₀⟩ := p
                obtain ⟨hi₀, _, _, hmin, _⟩ := ih.2 i₀ d₀ hold
                have hDd : |r.medianMidY - m| < d₀ := by
                  simpa using hbest (i₀, d₀) hold
                exact lt_of_lt_of_le hDd (hmin j hjlt' hq)
      · -- the guard fails: the previous best (possibly none) stands
        rw [if_neg hc] at hstep
        have hcp := ((betterQ_eq_true t |r.medianMidY - m|
          (pickRow rs m t)).not).mp hc
        push_neg at hcp
        constructor
        · rw [hstep]
          constructor
          · intro hnone r' hr'
            rcases List.mem_append.mp hr' with h | h
            · exact ih.1.mp hnone r' h
            · have : r' = r := by simpa using h
              subst this
              intro hq
              obtain ⟨p, hp, _⟩ := hcp hq
              rw [hnone] at hp
              exact Option.noConfusion hp
          · intro hall
            apply ih.1.mpr
            intro r' hr'
            exact hall r' (List.mem_append.mpr (Or.inl hr'))
        · intro i d h
          rw [hstep] at h
          obtain ⟨hi₀, heq, hdt, hmin, hfirst⟩ := ih.2 i d h
          have hi' : i < (rs ++ [r]).length := by simp; omega
          have hgeti : (rs ++ [r]).get ⟨i, hi'⟩ = rs.get ⟨i, hi₀⟩ := by
            simp [List.get_eq_getElem, List.getElem_append_left hi₀]
          refine ⟨hi', by rw [hgeti]; exact heq, hdt, ?_, ?_⟩
          · intro j hj hq
            rcases Nat.lt_or_ge j rs.length with hjlt | hjge
            · have hget : (rs ++ [r]).get ⟨j, hj⟩ = rs.get ⟨j, hjlt⟩ := by
                simp [List.get_eq_getElem, List.getElem_append_left hjlt]
              rw [hget] at hq ⊢
              exact hmin j hjlt hq
            · have hj' : j = rs.length := by
                have := hj; simp at this; omega
              subst hj'
              have hget : (rs ++ [r]).get ⟨rs.length, hj⟩ = r := by
                simp [List.get_eq_getElem]
              rw [hget] at hq ⊢
              obtain ⟨p, hp, hnd⟩ := hcp hq
              rw [h] at hp
              have : p = (i, d) := (Option.some.inj hp).symm
              subst this
              exact hnd
          · intro j hj hjlt hq
            have hjlt' : j < rs.length := Nat.lt_trans hjlt hi₀
            have hget : (rs ++ [r]).get ⟨j, hj⟩ = rs.get ⟨j, hjlt'⟩ := by
              simp [List.get_eq_getElem, List.getElem_append_left hjlt']
            rw [hget] at hq ⊢
            exact hfirst j hjlt' hjlt hq

/-! ## Simple pipeline lemmas -/

theorem filteredBlocks_nil (mc : Option ℚ) : filteredBlocks [] mc = [] := by
  cases mc <;> rfl

theorem renderRow_zero (row : Row) : renderRow 0 row = [] := by
  unfold renderRow
  have h0 : ((sortRowBlocks row).foldl (rowStep 0) (List.replicate 0 ' ', 0)).1
      = [] := by
    apply List.eq_nil_of_length_eq_zero
    simpa using foldl_rowStep_length 0 (sortRowBlocks row) (List.replicate 0 ' ') 0
  rw [h0]
  rfl

/-! ## Claim theorems -/

/-- C5: the fragments used for reconstruction are exactly the subsequence of
fragments whose confidence is absent or at least `minConfidence`; with
`minConfidence` absent no fragment is dropped (the embedding is pure, so the
input list is untouched). -/
theorem confidence_filter_contract (blocks : List TextBlock) (mc : ℚ) :
    filteredBlocks blocks none = blocks
    ∧ (filteredBlocks blocks (some mc)).Sublist blocks
    ∧ filteredBlocks blocks (some mc) =
        blocks.filter fun b => decide (specPass mc b) := by
  refine ⟨rfl, List.filter_sublist blocks, ?_⟩
  unfold filteredBlocks
  apply List.filter_congr
  intro b _
  cases hb : b.confidence with
  | none => simp [specPass, hb]
  | some c => simp [specPass, hb]

/-- C7: reconstructing an empty fragment list, or one emptied by the
confidence filter, yields the empty string (and is total, hence raises no
error), for every mode, metadata and options. -/
theorem empty_input_empty_output (blocks : List TextBlock)
    (metadata : Option ScanMetadata) (options : ReconstructOptions)
    (hempty : filteredBlocks blocks options.minConfidence = []) :
    (∀ mode, reconstructFromBlocks [] mode options = [])
    ∧ (∀ mode, reconstructFromBlocks blocks mode options = [])
    ∧ reconstructReceipt
        { text := none, blocks := some blocks, metadata := metadata }
        options = [] := by
  have h1 : ∀ mode, reconstructFromBlocks [] mode options = [] := by
    intro mode
    simp [reconstructFromBlocks, filteredBlocks_nil]
  have h2 : ∀ mode, reconstructFromBlocks blocks mode options = [] := by
    intro mode
    simp [reconstructFromBlocks, hempty]
  refine ⟨h1, h2, ?_⟩
  unfold reconstructReceipt
  cases hg : isNativeClusteredV2 (some metadata).join with
  | true => simp [hg, h2]
  | false => simp [hg, h2]

/-- C10: with V2 metadata from an engine other than `RecognizeDocumentsRequest`
but no native text (absent or empty), `reconstructReceipt` does not
short-circuit to `""`: it runs the block pipeline in `clustered` mode. -/
theorem v2_missing_text_fallback (md : ScanMetadata)
    (blocks : List TextBlock) (options : ReconstructOptions)
    (h2 : md.textVersion = 2)
    (hne : md.ocrEngine ≠ "RecognizeDocumentsRequest") :
    reconstructReceipt
        { text := none, blocks := some blocks, metadata := some md } options =
      reconstructFromBlocks blocks .clustered options
    ∧ reconstructReceipt
        { text := some [], blocks := some blocks, metadata := some md } options =
      reconstructFromBlocks blocks .clustered options := by
  have hguard : isNativeClusteredV2 (some md) = true := by
    simp [isNativeClusteredV2, h2, hne]
  constructor <;> simp [reconstructReceipt, hguard]

/-- C10 witness: concrete V2 MLKit metadata with one block and no text. -/
theorem v2_missing_text_fallback_witness :
    reconstructReceipt
        { text := none, blocks := some [exA], metadata := some mdV2 } {} =
      reconstructFromBlocks [exA] .clustered {} :=
  (v2_missing_text_fallback mdV2 [exA] {} rfl (by decide)).1

/-- C6: with V2 metadata from an engine other than `RecognizeDocumentsRequest`
and non-empty native text, `reconstructReceipt` ignores the block list and
returns the text with exactly its trailing-whitespace suffix removed. -/
theorem v2_native_text_passthrough (md : ScanMetadata) (text : List Char)
    (options : ReconstructOptions) (h2 : md.textVersion = 2)
    (hne : md.ocrEngine ≠ "RecognizeDocumentsRequest") (ht : text ≠ []) :
    (∀ blocks : Option (List TextBlock),
        reconstructReceipt
          { text := some text, blocks := blocks, metadata := some md }
          options = trimEnd text)
    ∧ ∃ w, text = trimEnd text ++ w ∧ ∀ c ∈ w, isJsSpace c = true := by
  have hguard : isNativeClusteredV2 (some md) = true := by
    simp [isNativeClusteredV2, h2, hne]
  refine ⟨?_, trimEnd_decomp text⟩
  intro blocks
  have hfalse : text.isEmpty = false := by
    cases text with
    | nil => exact absurd rfl ht
    | cons c cs => rfl
  simp [reconstructReceipt, hguard, hfalse]

/-- C6 witness: the text `"hi "` with V2 MLKit metadata is returned as
`"hi"`, blocks ignored. -/
theorem v2_native_text_passthrough_witness :
    reconstructReceipt
        { text := some ['h', 'i', ' '], blocks := some [exA],
          metadata := some mdV2 } {} = trimEnd ['h', 'i', ' '] :=
  (v2_native_text_passthrough mdV2 ['h', 'i', ' '] {} rfl (by decide)
    (by decide)).1 (some [exA])

unseal Rat.mul Rat.add Rat.inv Rat.sub in
/-- C7 witness: a single block of confidence `0.2` against
`minConfidence = 0.5`, with V1 metadata. -/
theorem empty_input_empty_output_witness :
    reconstructReceipt
        { text := none, blocks := some [exLow], metadata := some mdV1 }
        { minConfidence := some (1/2) } = [] :=
  (empty_input_empty_output [exLow] (some mdV1)
    { minConfidence := some (1/2) } (by decide)).2.2

unseal Rat.mul Rat.add Rat.inv Rat.sub in
/-- C4 counterexample: a single block of height `0.01` in `clustered` mode
with no caller-supplied `rowGroupingFactor`.  The code computes the threshold
`0.4 × 0.01 = 1/250`, while the claim's formula
`0.5 × max(medianHeight, 0.02)` gives `1/100`. -/
theorem threshold_formula_counterexample :
    effectiveFactor .clustered {} = 2/5
    ∧ thresholdOf [exH] (effectiveFactor .clustered {}) = 1/250
    ∧ (1/2 : ℚ) * max (typicalHeightOf [exH]) (1/50) = 1/100
    ∧ thresholdOf [exH] (effectiveFactor .clustered {}) ≠
        (1/2 : ℚ) * max (typicalHeightOf [exH]) (1/50) :=
  ⟨by decide, by decide, by decide, by decide⟩

/-- C4 (amended): the clustering threshold equals
`rowGroupingFactor × medianFragmentHeight` when the median height is
positive and `rowGroupingFactor × 0.02` otherwise, and the default factor is
`0.4` for `clustered` mode and `0.5` for `paragraphs` mode. -/
theorem threshold_formula_corrected (filtered : List TextBlock) (rgf : ℚ)
    (mode : ReconstructMode) (options : ReconstructOptions)
    (hnone : options.rowGroupingFactor = none) :
    (0 < typicalHeightOf filtered →
      thresholdOf filtered rgf = rgf * typicalHeightOf filtered)
    ∧ (typicalHeightOf filtered ≤ 0 →
      thresholdOf filtered rgf = rgf * (1/50))
    ∧ effectiveFactor mode options = MODE_FACTOR mode
    ∧ MODE_FACTOR .clustered = 2/5
    ∧ MODE_FACTOR .paragraphs = 1/2 := by
  refine ⟨?_, ?_, ?_, rfl, rfl⟩
  · intro hpos
    unfold thresholdOf
    rw [if_pos hpos]
  · intro hnonpos
    unfold thresholdOf
    rw [if_neg (not_lt.mpr hnonpos)]
  · unfold effectiveFactor
    rw [hnone]
    rfl

unseal Rat.mul Rat.add Rat.inv Rat.sub in
/-- C4 witness: instantiation at the height-`0.01` block. -/
theorem threshold_formula_corrected_witness :
    thresholdOf [exH] (2/5) = (2/5 : ℚ) * typicalHeightOf [exH] :=
  (threshold_formula_corrected [exH] (2/5) .clustered {} rfl).1 (by decide)

unseal Rat.mul Rat.add Rat.inv Rat.sub in
/-- C8 counterexample: `lineWidth = 0` is accepted without any validation:
reconstruction silently returns output (the empty string for one row, a bare
newline for two rows) instead of failing fast. -/
theorem linewidth_validation_counterexample :
    reconstructFromBlocks [exA] .clustered { lineWidth := some 0 } = []
    ∧ reconstructFromBlocks [exA, exFar] .clustered { lineWidth := some 0 } =
        ['\n'] :=
  ⟨by decide, by decide⟩

/-- C8 (amended): `reconstructFromBlocks` performs no `lineWidth` validation;
it is total, and with `lineWidth = 0` every rendered line is empty, so the
output consists solely of newline separators. -/
theorem zero_linewidth_no_failfast (blocks : List TextBlock)
    (mode : ReconstructMode) (mc rgf : Option ℚ) :
    (reconstructFromBlocks blocks mode
      { lineWidth := some 0, minConfidence := mc, rowGroupingFactor := rgf }).all
        (· == '\n') = true := by
  rw [List.all_eq_true]
  intro c hc
  rw [beq_iff_eq]
  unfold reconstructFromBlocks at hc
  by_cases hemp : (filteredBlocks blocks mc).isEmpty
  · simp only [hemp, if_true] at hc
    exact absurd hc (by simp)
  · simp only [hemp, Bool.false_eq_true, if_false] at hc
    refine joinLines_all_nl _ ?_ c hc
    intro l hl
    obtain ⟨row, _, hrow⟩ := List.mem_map.mp hl
    rw [← hrow]
    exact renderRow_zero row

unseal Rat.mul Rat.add Rat.inv Rat.sub in
/-- C3 counterexample: two blocks on one visual row, at `x = 0` and
`x = 0.5`, rendered at the default `lineWidth = 56`: the grid renderer emits
27 consecutive spaces between them, far exceeding the claimed 10-space cap. -/
theorem space_cap_counterexample :
    10 < maxSpaceRun (reconstructReceipt
      { text := none, blocks := some [exA, exB], metadata := some mdV1 } {}) :=
  by decide

/-- C3 (amended): the 10-space cap holds for the native V2 line renderer
(`TextRecognizerV2` caps each inserted gap at `maxSpaces = 10`), while the
grid renderer of `reconstructFromBlocks` bounds a rendered row — and hence
any space run inside it — only by `lineWidth`. -/
theorem space_cap_corrected (gap medianH : ℚ) (W : ℕ) (row : Row) :
    v2GapSpaceCount gap medianH ≤ maxSpaces
    ∧ (renderRow W row).length ≤ W := by
  refine ⟨?_, renderRow_length_le W row⟩
  unfold v2GapSpaceCount
  by_cases h1 : gap > medianH * adaptiveSpacingFactor
  · rw [if_pos h1]
    have hmin : min (max 1 (truncQ (gap / (medianH * spaceWidthFactor))))
        ((maxSpaces : ℕ) : ℤ) ≤ ((maxSpaces : ℕ) : ℤ) := min_le_right _ _
    exact Int.toNat_le.mpr hmin
  · rw [if_neg h1]
    by_cases h2 : gap > 0
    · rw [if_pos h2]
      unfold maxSpaces
      omega
    · rw [if_neg h2]
      unfold maxSpaces
      omega

/-- C1: one step of the greedy clusterer.  If no existing row's `medianMidY`
lies strictly within the threshold of the block's `midY`, a fresh singleton
row is appended; otherwise the block is appended to the row with the
smallest distance, the earliest-created (lowest-index) row winning ties, and
that row's `medianMidY` is recomputed as the median of all its accumulated
member `midY`s.  The pipeline feeds blocks to this step in ascending `midY`
order (last conjunct). -/
theorem clusterer_greedy_nearest_row (threshold : ℚ) (rows : List Row)
    (b : TextBlock) :
    ((∀ j, ∀ hj : j < rows.length,
        ¬ |(rows.get ⟨j, hj⟩).medianMidY - midY b| < threshold) →
      insertBlock threshold rows b =
        rows ++ [{ blocks := [b], midYs := [midY b], medianMidY := midY b }])
    ∧ ((∃ j, ∃ hj : j < rows.length,
        |(rows.get ⟨j, hj⟩).medianMidY - midY b| < threshold) →
      ∃ i, ∃ hi : i < rows.length,
        |(rows.get ⟨i, hi⟩).medianMidY - midY b| < threshold
        ∧ (∀ j, ∀ hj : j < rows.length,
            |(rows.get ⟨j, hj⟩).medianMidY - midY b| < threshold →
              |(rows.get ⟨i, hi⟩).medianMidY - midY b| ≤
                |(rows.get ⟨j, hj⟩).medianMidY - midY b|)
        ∧ (∀ j, ∀ hj : j < rows.length, j < i →
            |(rows.get ⟨j, hj⟩).medianMidY - midY b| < threshold →
              |(rows.get ⟨i, hi⟩).medianMidY - midY b| <
                |(rows.get ⟨j, hj⟩).medianMidY - midY b|)
        ∧ insertBlock threshold rows b =
            rows.set i (appendToRow (rows.get ⟨i, hi⟩) b)
        ∧ (appendToRow (rows.get ⟨i, hi⟩) b).blocks =
            (rows.get ⟨i, hi⟩).blocks ++ [b]
        ∧ (appendToRow (rows.get ⟨i, hi⟩) b).medianMidY =
            computeMedian ((rows.get ⟨i, hi⟩).midYs ++ [midY b]))
    ∧ (∀ l : List TextBlock,
        (sortByKey midY l).Pairwise fun a c => midY a ≤ midY c) := by
  refine ⟨?_, ?_, fun l => sortByKey_sorted midY l⟩
  · intro hall
    have hnone : pickRow rows (midY b) threshold = none := by
      apply (pickRow_spec (midY b) threshold rows).1.mpr
      intro r hr
      obtain ⟨⟨j, hj⟩, hget⟩ := List.mem_iff_get.mp hr
      rw [← hget]
      exact hall j hj
    unfold insertBlock
    rw [hnone]
  · intro hex
    cases hpick : pickRow rows (midY b) threshold with
    | none =>
        obtain ⟨j, hj, hq⟩ := hex
        exact absurd hq
          ((pickRow_spec (midY b) threshold rows).1.mp hpick _
            (List.get_mem rows j hj))
    | some p =>
        obtain ⟨i, d⟩ := p
        obtain ⟨hi, heq, hdt, hmin, hfirst⟩ :=
          (pickRow_spec (midY b) threshold rows).2 i d hpick
        refine ⟨i, hi, ?_, ?_, ?_, ?_, rfl, rfl⟩
        · rw [← heq]; exact hdt
        · intro j hj hq
          rw [← heq]; exact hmin j hj hq
        · intro j hj hji hq
          rw [← heq]; exact hfirst j hj hji hq
        · unfold insertBlock
          rw [hpick]
          exact updateRowAt_eq_set rows i b hi

unseal Rat.mul Rat.add Rat.inv Rat.sub in
/-- C1 witness: two rows with `medianMidY = 0` (equidistant from the block's
`midY = 0.05` within threshold `1`): the earliest row, index `0`, receives
the block. -/
theorem clusterer_greedy_nearest_row_witness :
    ∃ i, ∃ hi : i <
        [({ blocks := [], midYs := [], medianMidY := 0 } : Row),
         ({ blocks := [], midYs := [], medianMidY := 0 } : Row)].length,
      |(([({ blocks := [], midYs := [], medianMidY := 0 } : Row),
          ({ blocks := [], midYs := [], medianMidY := 0 } : Row)]).get
            ⟨i, hi⟩).medianMidY - midY exA| < 1
      ∧ (∀ j, ∀ hj : j <
          [({ blocks := [], midYs := [], medianMidY := 0 } : Row),
           ({ blocks := [], midYs := [], medianMidY := 0 } : Row)].length,
          |(([({ blocks := [], midYs := [], medianMidY := 0 } : Row),
              ({ blocks := [], midYs := [], medianMidY := 0 } : Row)]).get
                ⟨j, hj⟩).medianMidY - midY exA| < 1 →
            |(([({ blocks := [], midYs := [], medianMidY := 0 } : Row),
                ({ blocks := [], midYs := [], medianMidY := 0 } : Row)]).get
                  ⟨i, hi⟩).medianMidY - midY exA| ≤
              |(([({ blocks := [], midYs := [], medianMidY := 0 } : Row),
                  ({ blocks := [], midYs := [], medianMidY := 0 } : Row)]).get
                    ⟨j, hj⟩).medianMidY - midY exA|)
      ∧ (∀ j, ∀ hj : j <
          [({ blocks := [], midYs := [], medianMidY := 0 } : Row),
           ({ blocks := [], midYs := [], medianMidY := 0 } : Row)].length,
          j < i →
          |(([({ blocks := [], midYs := [], medianMidY := 0 } : Row),
              ({ blocks := [], midYs := [], medianMidY := 0 } : Row)]).get
                ⟨j, hj⟩).medianMidY - midY exA| < 1 →
            |(([({ blocks := [], midYs := [], medianMidY := 0 } : Row),
                ({ blocks := [], midYs := [], medianMidY := 0 } : Row)]).get
                  ⟨i, hi⟩).medianMidY - midY exA| <
              |(([({ blocks := [], midYs := [], medianMidY := 0 } : Row),
                  ({ blocks := [], midYs := [], medianMidY := 0 } : Row)]).get
                    ⟨j, hj⟩).medianMidY - midY exA|)
      ∧ insertBlock 1
          [({ blocks := [], midYs := [], medianMidY := 0 } : Row),
           ({ blocks := [], midYs := [], medianMidY := 0 } : Row)] exA =
          ([({ blocks := [], midYs := [], medianMidY := 0 } : Row),
            ({ blocks := [], midYs := [], medianMidY := 0 } : Row)]).set i
            (appendToRow
              (([({ blocks := [], midYs := [], medianMidY := 0 } : Row),
                 ({ blocks := [], midYs := [], medianMidY := 0 } : Row)]).get
                ⟨i, hi⟩) exA)
      ∧ (appendToRow
            (([({ blocks := [], midYs := [], medianMidY := 0 } : Row),
               ({ blocks := [], midYs := [], medianMidY := 0 } : Row)]).get
              ⟨i, hi⟩) exA).blocks =
          (([({ blocks := [], midYs := [], medianMidY := 0 } : Row),
             ({ blocks := [], midYs := [], medianMidY := 0 } : Row)]).get
            ⟨i, hi⟩).blocks ++ [exA]
      ∧ (appendToRow
            (([({ blocks := [], midYs := [], medianMidY := 0 } : Row),
               ({ blocks := [], midYs := [], medianMidY := 0 } : Row)]).get
              ⟨i, hi⟩) exA).medianMidY =
          computeMedian
            ((([({ blocks := [], midYs := [], medianMidY := 0 } : Row),
                ({ blocks := [], midYs := [], medianMidY := 0 } : Row)]).get
              ⟨i, hi⟩).midYs ++ [midY exA]) :=
  (clusterer_greedy_nearest_row 1
    [({ blocks := [], midYs := [], medianMidY := 0 } : Row),
     ({ blocks := [], midYs := [], medianMidY := 0 } : Row)] exA).2.1
    ⟨0, by decide, by decide⟩

/-! ## Placement lemmas for the row renderer -/

theorem placements_cols_ge (W : ℕ) :
    ∀ (bs : List TextBlock) (c : ℤ), ∀ p ∈ placements W c bs, c ≤ p.1
  | [], _, p, hp => absurd hp (by simp [placements])
  | b :: bs, c, p, hp => by
      rw [placements] at hp
      rcases List.mem_cons.mp hp with h | h
      · rw [h]
        exact le_max_right _ _
      · have hrec := placements_cols_ge W bs
          (max (jsRound (b.frame.x * W)) c + (b.text.length : ℤ) + 1) p h
        have hc : c ≤ max (jsRound (b.frame.x * W)) c := le_max_right _ _
        have hlen : (0 : ℤ) ≤ (b.text.length : ℤ) := Int.natCast_nonneg _
        omega

theorem placements_pairwise (W : ℕ) :
    ∀ (bs : List TextBlock) (c : ℤ),
      (placements W c bs).Pairwise fun p q => p.1 + (p.2.length : ℤ) + 1 ≤ q.1
  | [], _ => by simp [placements]
  | b :: bs, c => by
      rw [placements]
      refine List.Pairwise.cons ?_ (placements_pairwise W bs _)
      intro q hq
      exact placements_cols_ge W bs _ q hq

theorem fst_foldl_rowStep (W : ℕ) :
    ∀ (bs : List TextBlock) (buf : List Char) (c : ℤ),
      (bs.foldl (rowStep W) (buf, c)).1 =
        (placements W c bs).foldl (fun bf p => writeText bf p.1 p.2) buf
  | [], _, _ => rfl
  | b :: bs, buf, c => by
      rw [List.foldl_cons, placements, List.foldl_cons]
      exact fst_foldl_rowStep W bs _ _

theorem writeChar_getD_lt (buf : List Char) (pos : ℤ) (ch : Char) (n : ℕ)
    (hn : (n : ℤ) < pos) :
    (writeChar buf pos ch).getD n ' ' = buf.getD n ' ' := by
  unfold writeChar
  split
  · next h =>
      have hne : pos.toNat ≠ n := by omega
      rw [List.getD_eq_getElem?_getD, List.getElem?_set_ne hne,
        ← List.getD_eq_getElem?_getD]
  · rfl

theorem writeText_getD_lt :
    ∀ (t : List Char) (buf : List Char) (col : ℤ) (n : ℕ),
      (n : ℤ) < col → (writeText buf col t).getD n ' ' = buf.getD n ' '
  | [], _, _, _, _ => rfl
  | ch :: cs, buf, col, n, hn => by
      rw [writeText, writeText_getD_lt cs _ (col + 1) n (by omega),
        writeChar_getD_lt buf col ch n hn]

theorem writeText_getD_at :
    ∀ (t : List Char) (buf : List Char) (col : ℤ) (i : ℕ),
      0 ≤ col → i < t.length → col.toNat + i < buf.length →
      (writeText buf col t).getD (col.toNat + i) ' ' = t.getD i ' '
  | [], _, _, i, _, hi, _ => absurd hi (by simp)
  | ch :: cs, buf, col, 0, hcol, _, hlt => by
      rw [writeText, Nat.add_zero]
      rw [writeText_getD_lt cs _ (col + 1) col.toNat (by omega)]
      unfold writeChar
      rw [if_pos ⟨hcol, by omega⟩]
      rw [List.getD_eq_getElem?_getD,
        List.getElem?_set_self (by simpa using by omega : col.toNat < buf.length)]
      rfl
  | ch :: cs, buf, col, i + 1, hcol, hi, hlt => by
      rw [writeText]
      have hpos : col.toNat + (i + 1) = (col + 1).toNat + i := by omega
      rw [hpos]
      rw [writeText_getD_at cs (writeChar buf col ch) (col + 1) i (by omega)
        (by simpa using hi) (by rw [writeChar_length]; omega)]
      rfl

theorem foldl_write_getD_lt :
    ∀ (ps : List (ℤ × List Char)) (buf : List Char) (n : ℕ),
      (∀ q ∈ ps, (n : ℤ) < q.1) →
      ((ps.foldl (fun bf p => writeText bf p.1 p.2) buf)).getD n ' ' =
        buf.getD n ' '
  | [], _, _, _ => rfl
  | q :: ps, buf, n, hall => by
      rw [List.foldl_cons,
        foldl_write_getD_lt ps _ n (fun q' hq' => hall q' (by simp [hq'])),
        writeText_getD_lt q.2 buf q.1 n (hall q (by simp))]

theorem foldl_write_getD_of_mem :
    ∀ (ps : List (ℤ × List Char)) (buf : List Char) (p : ℤ × List Char),
      p ∈ ps →
      ps.Pairwise (fun p q => p.1 + (p.2.length : ℤ) + 1 ≤ q.1) →
      (∀ q ∈ ps, 0 ≤ q.1) →
      ∀ i, i < p.2.length → p.1.toNat + i < buf.length →
      ((ps.foldl (fun bf p => writeText bf p.1 p.2) buf)).getD
          (p.1.toNat + i) ' ' = p.2.getD i ' '
  | [], _, p, hp, _, _, _, _, _ => absurd hp (by simp)
  | q :: ps, buf, p, hp, hpw, hpos, i, hi, hlt => by
      rcases List.mem_cons.mp hp with h | h
      · subst h
        rw [List.foldl_cons]
        have hq0 : (0 : ℤ) ≤ p.1 := hpos p (by simp)
        have hafter : ∀ q' ∈ ps, ((p.1.toNat + i : ℕ) : ℤ) < q'.1 := by
          intro q' hq'
          have := (List.pairwise_cons.mp hpw).1 q' hq'
          omega
        rw [foldl_write_getD_lt ps _ _ hafter]
        exact writeText_getD_at p.2 buf p.1 i hq0 hi hlt
      · rw [List.foldl_cons]
        exact foldl_write_getD_of_mem ps _ p h (List.pairwise_cons.mp hpw).2
          (fun q' hq' => hpos q' (by simp [hq'])) i hi
          (by rw [writeText_length]; exact hlt)

/-- C2: the rendered output is the rows joined in the order of the row list,
which is sorted by ascending final `medianMidY`; within a row the blocks are
rendered in ascending `frame.x` order, each block's text is placed at a
column at least one past the end of the previous block's text (so texts
appear strictly left-to-right), and every in-range character of each placed
text survives in the final row buffer. -/
theorem render_order_row_and_column (blocks : List TextBlock)
    (mode : ReconstructMode) (options : ReconstructOptions) :
    reconstructFromBlocks blocks mode options =
      (if (filteredBlocks blocks options.minConfidence).isEmpty then []
       else joinLines ((pipelineRows blocks mode options).map
         (renderRow (options.lineWidth.getD 56))))
    ∧ (pipelineRows blocks mode options).Pairwise
        (fun r s => r.medianMidY ≤ s.medianMidY)
    ∧ (∀ row ∈ pipelineRows blocks mode options,
        (sortRowBlocks row).Pairwise fun a c => a.frame.x ≤ c.frame.x)
    ∧ (∀ row ∈ pipelineRows blocks mode options,
        (placements (options.lineWidth.getD 56) 0 (sortRowBlocks row)).Pairwise
          fun p q => p.1 + (p.2.length : ℤ) + 1 ≤ q.1)
    ∧ (∀ row ∈ pipelineRows blocks mode options,
        renderRow (options.lineWidth.getD 56) row =
          trimEnd ((placements (options.lineWidth.getD 56) 0
            (sortRowBlocks row)).foldl (fun bf p => writeText bf p.1 p.2)
              (List.replicate (options.lineWidth.getD 56) ' ')))
    ∧ (∀ row ∈ pipelineRows blocks mode options,
        ∀ p ∈ placements (options.lineWidth.getD 56) 0 (sortRowBlocks row),
          ∀ i, i < p.2.length → p.1.toNat + i < options.lineWidth.getD 56 →
            ((placements (options.lineWidth.getD 56) 0
              (sortRowBlocks row)).foldl (fun bf p => writeText bf p.1 p.2)
                (List.replicate (options.lineWidth.getD 56) ' ')).getD
              (p.1.toNat + i) ' ' = p.2.getD i ' ') := by
  refine ⟨rfl, sortByKey_sorted _ _, ?_, ?_, ?_, ?_⟩
  · intro row _
    exact sortByKey_sorted _ _
  · intro row _
    exact placements_pairwise _ _ 0
  · intro row _
    unfold renderRow
    rw [fst_foldl_rowStep]
  · intro row _ p hp i hi hlt
    refine foldl_write_getD_of_mem _ _ p hp (placements_pairwise _ _ 0)
      (fun q hq => placements_cols_ge _ _ 0 q hq) i hi ?_
    rw [List.length_replicate]
    exact hlt

unseal Rat.mul Rat.add Rat.inv Rat.sub in
/-- C2 witness: the single row produced from `[exA, exB]` has its blocks
sorted by ascending `x`. -/
theorem render_order_row_and_column_witness :
    (sortRowBlocks
        { blocks := [exA, exB], midYs := [1/20, 1/20], medianMidY := 1/20 }
      ).Pairwise fun a c => a.frame.x ≤ c.frame.x :=
  (render_order_row_and_column [exA, exB] .clustered {}).2.2.1
    { blocks := [exA, exB], midYs := [1/20, 1/20], medianMidY := 1/20 }
    (by decide)

/-! ## Permutation lemmas for the pipeline -/

theorem reconstructFromBlocks_eq (blocks : List TextBlock)
    (mode : ReconstructMode) (options : ReconstructOptions) :
    reconstructFromBlocks blocks mode options =
      if (filteredBlocks blocks options.minConfidence).isEmpty then []
      else joinLines ((pipelineRows blocks mode options).map
        (renderRow (options.lineWidth.getD 56))) := rfl

theorem filteredBlocks_perm {l₁ l₂ : List TextBlock} (h : l₁.Perm l₂)
    (mc : Option ℚ) : (filteredBlocks l₁ mc).Perm (filteredBlocks l₂ mc) := by
  cases mc with
  | none => exact h
  | some mc => exact h.filter _

theorem typicalHeightOf_perm {l₁ l₂ : List TextBlock} (h : l₁.Perm l₂) :
    typicalHeightOf l₁ = typicalHeightOf l₂ := by
  have hs : sortByKey id (l₁.map fun b => b.frame.height) =
      sortByKey id (l₂.map fun b => b.frame.height) := by
    have hperm' : (sortByKey id (l₁.map fun b => b.frame.height)).Perm
        (sortByKey id (l₂.map fun b => b.frame.height)) :=
      (sortByKey_perm id _).trans ((h.map _).trans (sortByKey_perm id _).symm)
    exact @List.eq_of_perm_of_sorted ℚ (keyLE id) _ _ _ hperm'
      (sortByKey_sorted id _) (sortByKey_sorted id _)
  unfold typicalHeightOf
  rw [hs]

theorem isEmpty_of_perm {α : Type} {l₁ l₂ : List α} (h : l₁.Perm l₂) :
    l₁.isEmpty = l₂.isEmpty := by
  cases l₁ with
  | nil => rw [h.nil_eq.symm]
  | cons a t =>
      cases l₂ with
      | nil => exact absurd h.symm.nil_eq (by simp)
      | cons b t₂ => rfl

unseal Rat.mul Rat.add Rat.inv Rat.sub in
/-- C9 counterexample: `exTieB` and `exTieA` share `midY = 0.1` but differ in
`y`.  Reconstructing `[exTieB, exTieA]` renders `"… B A"` while the
`(y, x)`-pre-sorted list `[exTieA, exTieB]` renders `"… A B"`. -/
theorem presort_counterexample :
    reconstructReceipt
        { text := none, blocks := some [exTieB, exTieA],
          metadata := some mdV1 } {} ≠
      reconstructReceipt
        { text := none, blocks := some (sortYX [exTieB, exTieA]),
          metadata := some mdV1 } {} := by decide

/-- C9 (amended): reconstructing a fragment list and reconstructing the same
list pre-sorted by `(y, x)` produce identical output, provided the
confidence-filtered fragments have pairwise-distinct `midY` values (with
coinciding `midY`s the stable sorts make the output depend on input order,
as the counterexample shows). -/
theorem presort_invariance_corrected (blocks : List TextBlock)
    (mode : ReconstructMode) (options : ReconstructOptions)
    (hdist : (filteredBlocks blocks options.minConfidence).Pairwise
      fun a b => midY a ≠ midY b) :
    reconstructFromBlocks (sortYX blocks) mode options =
      reconstructFromBlocks blocks mode options := by
  have hperm : (filteredBlocks (sortYX blocks) options.minConfidence).Perm
      (filteredBlocks blocks options.minConfidence) :=
    filteredBlocks_perm (List.perm_insertionSort _ blocks) options.minConfidence
  have hdist₁ : (filteredBlocks (sortYX blocks) options.minConfidence).Pairwise
      fun a b => midY a ≠ midY b :=
    (hperm.pairwise_iff (fun {a b} h e => h e.symm)).mpr hdist
  have hsort : sortByKey midY (filteredBlocks (sortYX blocks) options.minConfidence)
      = sortByKey midY (filteredBlocks blocks options.minConfidence) :=
    sortByKey_eq_of_perm hperm hdist₁
  have hthresh : thresholdOf (filteredBlocks (sortYX blocks) options.minConfidence)
        (effectiveFactor mode options) =
      thresholdOf (filteredBlocks blocks options.minConfidence)
        (effectiveFactor mode options) := by
    unfold thresholdOf
    rw [typicalHeightOf_perm hperm]
  have hrows : pipelineRows (sortYX blocks) mode options =
      pipelineRows blocks mode options := by
    unfold pipelineRows clusterRows
    rw [hsort, hthresh]
  rw [reconstructFromBlocks_eq, reconstructFromBlocks_eq,
    isEmpty_of_perm hperm, hrows]

unseal Rat.mul Rat.add Rat.inv Rat.sub in
/-- C9 witness: two blocks with distinct `midY`s, supplied bottom-first. -/
theorem presort_invariance_corrected_witness :
    reconstructFromBlocks (sortYX [exFar, exA]) .clustered {} =
      reconstructFromBlocks [exFar, exA] .clustered {} :=
  presort_invariance_corrected [exFar, exA] .clustered {} (by decide)

end DocScan
